import Mathlib

/-!
# A shallow embedding of `cvpickle` (src/src/cvpickle.py)

`cvpickle` makes `contextvars.Context` objects picklable.  The embedding
models:

* `ContextVar` objects by their identity (an `id : Nat`) plus their declared
  short `name`; Python object identity (`is`) becomes structural equality of
  `ContextVar`.
* `contextvars.Context` as an association list from variables to values
  (Python dict semantics: unique keys, insertion overwrites in place,
  deletion of an absent key raises `KeyError`), together with the concrete
  class of the instance (`contextvars.Context` itself or a subclass).
* the module/attribute environment used by `importlib.import_module` and
  `pickle._getattribute` as an explicit finite `Env`; a failed import is an
  `ImportError`, a failed attribute lookup an `AttributeError`.
* exceptions as `Except PyError`; mutable state (the reducer object, the
  process-global `copyreg`/stackless state, the ambient current context) by
  explicit state passing, so that every function returns its (possibly
  updated) state next to the `Except` result.
* `Context.run` by `ctxRun`: the body mutates the entered context, and the
  ambient current context of the world is restored when `run` returns,
  whether normally or with an exception.

Values stored in context variables are an arbitrary type `V` (the code never
inspects them).
-/

namespace Cvpickle

/-- Python dict lookup on an association list: the value of the unique entry
whose key equals `k`, if any. -/
def dictGet {K A : Type} [DecidableEq K] (k : K) : List (K × A) → Option A
  | [] => none
  | (k', v) :: rest => if k' = k then some v else dictGet k rest

/-- Python dict assignment `d[k] = v`: overwrite the entry for `k` in place if
present, otherwise append a new entry. -/
def dictInsert {K A : Type} [DecidableEq K] (k : K) (v : A) : List (K × A) → List (K × A)
  | [] => [(k, v)]
  | (k', v') :: rest =>
    if k' = k then (k, v) :: rest else (k', v') :: dictInsert k v rest

/-- Python dict deletion `del d[k]` on a dict known to contain `k`: drop the
entry for `k`. -/
def dictRemove {K A : Type} [DecidableEq K] (k : K) : List (K × A) → List (K × A)
  | [] => []
  | (k', v') :: rest =>
    if k' = k then rest else (k', v') :: dictRemove k rest

/-- A `contextvars.ContextVar` object: identity-significant, with a declared
short name (`ContextVar.name` in Python).  Two values are the same Python
object iff they are equal. -/
structure ContextVar where
  id : Nat
  name : String
deriving DecidableEq, Repr

/-- The exceptions the code can raise. -/
inductive PyError where
  | typeError
  | importError
  | attributeError
  | valueError
  | keyError
deriving DecidableEq, Repr

/-- Whether an error is a resolution error: a scope path or qualified name
that cannot be resolved to a live object (`ImportError` from
`importlib.import_module` or `AttributeError` from `pickle._getattribute`). -/
def PyError.isResolution : PyError → Prop
  | .importError => True
  | .attributeError => True
  | _ => False

instance : DecidablePred PyError.isResolution := by
  intro e
  cases e <;> simp [PyError.isResolution] <;> infer_instance

/-- The concrete class of a context instance: the base class
`contextvars.Context` itself, or a subclass identified by name. -/
inductive CtxClass where
  | base
  | sub (name : String)
deriving DecidableEq, Repr

/-- A `contextvars.Context` instance: its concrete class and its mapping from
context variables to values. -/
structure Context (V : Type) where
  cls : CtxClass
  vars : List (ContextVar × V)
deriving DecidableEq, Repr

/-- Reading a variable's value inside a context. -/
def ctxGet {V : Type} (cv : ContextVar) (c : Context V) : Option V :=
  dictGet cv c.vars

/-- `cv.set value` executed while `c` is the current context: record the value
for `cv` inside `c`. -/
def ctxSet {V : Type} (cv : ContextVar) (v : V) (c : Context V) : Context V :=
  { c with vars := dictInsert cv v c.vars }

/-- A portable reference: (module import path, qualified name). -/
abbrev ModRef := String × String

/-- A Python module: its `__name__` and the context variables reachable from
it by qualified name (the only attributes the code ever resolves). -/
structure Module where
  name : String
  attrs : List (String × ContextVar)
deriving DecidableEq, Repr

/-- The process environment consumed by the code: the importable modules, and
whether the optional `stackless` module is importable. -/
structure Env where
  modules : List (String × Module)
  stacklessAvailable : Bool
deriving DecidableEq, Repr

/-- `importlib.import_module`: resolve a module path to a live module. -/
def importModule (env : Env) (modulename : String) : Option Module :=
  dictGet modulename env.modules

/-- Re-resolve a portable reference to a live `ContextVar`:
`importlib.import_module(modulename)` followed by
`_getattribute(module, qualname)[0]`.  A missing module raises `ImportError`,
a missing attribute raises `AttributeError`. -/
def resolveModRef (env : Env) (r : ModRef) : Except PyError ContextVar :=
  match importModule env r.1 with
  | none => .error .importError
  | some m =>
    match dictGet r.2 m.attrs with
    | none => .error .attributeError
    | some cv => .ok cv

/-- The construction-strategy selector: the first component of the argument
tuple returned by `ContextReducer.__call__`.  In Python it is
`contextvars.copy_context` (the function), `None`, or a concrete context
class. -/
inductive Strategy where
  | copyContext
  | baseNone
  | ofClass (cls : CtxClass)
deriving DecidableEq, Repr

/-- The ambient state relevant to `_context_factory`: the current context
of the running thread, against which `contextvars.copy_context` and
`Context.run` operate. -/
structure World (V : Type) where
  current : Context V
deriving DecidableEq, Repr

/-- `context.run(body)`: enter `context` (making it current), let the body
mutate the entered context, and restore the previously current context on
exit — normal or exceptional.  The body is the effect on the entered
context. -/
def ctxRun {V : Type} (w : World V) (context : Context V)
    (body : Context V → Except PyError (Context V)) :
    Except PyError (Context V) × World V :=
  match body context with
  | .error e => (.error e, ⟨w.current⟩)
  | .ok context' => (.ok context', ⟨w.current⟩)

/-- The `set_vars` closure of `_context_factory`, run with the newly built
context as the current context: for each `(modulename, qualname), value` item
of the mapping, re-resolve the reference and `cv.set(value)` into the current
context.  A resolution failure propagates as the raised exception. -/
def set_vars {V : Type} (env : Env) :
    List (ModRef × V) → Context V → Except PyError (Context V)
  | [], context => .ok context
  | (r, v) :: rest, context =>
    match resolveModRef env r with
    | .error e => .error e
    | .ok cv => set_vars env rest (ctxSet cv v context)

/-- The starting context of `_context_factory`: `cls is None` → a fresh
`contextvars.Context()`; `cls` is `contextvars.copy_context` → `cls()`
snapshots the current context; `cls` is a class → `cls()` is a fresh empty
instance of it. -/
def initialContext {V : Type} (cls : Strategy) (w : World V) : Context V :=
  match cls with
  | .baseNone => ⟨.base, []⟩
  | .copyContext => ⟨.base, w.current.vars⟩
  | .ofClass c => ⟨c, []⟩

/-- `_context_factory(cls, mapping)`: build the starting context according to
`cls`, then `context.run(set_vars)` and return the populated context.  The
world carries the caller's ambient current context. -/
def context_factory {V : Type} (env : Env) (cls : Strategy)
    (mapping : List (ModRef × V)) (w : World V) :
    Except PyError (Context V) × World V :=
  ctxRun w (initialContext cls w) (set_vars env mapping)

/-- A `ContextReducer` object: the identity-keyed registry
`picklable_contextvars` plus the two construction flags. -/
structure ContextReducer where
  picklable_contextvars : List (ContextVar × ModRef)
  auto_register : Bool
  factory_is_copy_context : Bool
deriving DecidableEq, Repr

/-- The loop of `ContextReducer.__call__` building the dict `cvars`: for each
`(cv, value)` item of the context, look `cv` up in the registry; if
registered, insert `(mod_and_name, value)` into the accumulator dict,
otherwise skip silently. -/
def reduceCvars {V : Type} (reg : List (ContextVar × ModRef)) :
    List (ContextVar × V) → List (ModRef × V) → List (ModRef × V)
  | [], cvars => cvars
  | (cv, v) :: rest, cvars =>
    match dictGet cv reg with
    | none => reduceCvars reg rest cvars
    | some r => reduceCvars reg rest (dictInsert r v cvars)

/-- `ContextReducer.__call__` on a genuine `Context` instance (after the
`isinstance` check): the argument tuple `(cls, cvars)` handed to
`_context_factory`. -/
def reduceContext {V : Type} (red : ContextReducer) (context : Context V) :
    Strategy × List (ModRef × V) :=
  let cvars := reduceCvars red.picklable_contextvars context.vars []
  let cls : Strategy :=
    if red.factory_is_copy_context then
      .copyContext
    else
      match context.cls with
      | .base => .baseNone
      | c => .ofClass c
  (cls, cvars)

/-- An arbitrary Python value passed to the reducer: a context instance (of
the base class or a subclass — either passes `isinstance`), or any other
object, identified by its type name. -/
inductive PyVal (V : Type) where
  | ctxVal (c : Context V)
  | nonContext (tyName : String)
deriving DecidableEq, Repr

/-- `ContextReducer.__call__(context)` in full: raise `TypeError` unless the
argument is a `contextvars.Context` instance, then reduce it. -/
def reducerCall {V : Type} (red : ContextReducer) (arg : PyVal V) :
    Except PyError (Strategy × List (ModRef × V)) :=
  match arg with
  | .nonContext _ => .error .typeError
  | .ctxVal c => .ok (reduceContext red c)

/-- The `module` argument of `register_contextvar`: either a module path
string or a live module object. -/
inductive ModArg where
  | byName (s : String)
  | byModule (m : Module)
deriving DecidableEq, Repr

/-- Resolving the `module` argument during validation: a live module is used
as is, a path is imported (raising `ImportError` on failure). -/
def resolveModArg (env : Env) : ModArg → Except PyError Module
  | .byModule m => .ok m
  | .byName s =>
    match importModule env s with
    | some m => .ok m
    | none => .error .importError

/-- The process-global state touched by the auto-registration side effect:
how many times `copyreg.pickle(contextvars.Context, self)` has been executed
and with which reducer as the reduction function, and the stackless
`PICKLEFLAGS_PICKLE_CONTEXT` bits of `pickle_flags` and
`pickle_flags_default`. -/
structure GlobalState where
  copyregInstalls : Nat
  installedReducer : Option ContextReducer
  pickleFlagsCurrent : Bool
  pickleFlagsDefault : Bool
deriving DecidableEq, Repr

/-- The validation step of `register_contextvar`: resolve the module
(importing it when given as a path), look the qualname up in it
(`AttributeError` if absent), and require the resolved object to be the very
`contextvar` being registered (`ValueError` otherwise). -/
def validate_registration (env : Env) (contextvar : ContextVar) (module : ModArg)
    (qualname : String) : Except PyError Unit :=
  match resolveModArg env module with
  | .error e => .error e
  | .ok m =>
    match dictGet qualname m.attrs with
    | none => .error .attributeError
    | some v => if v = contextvar then .ok () else .error .valueError

/-- `ContextReducer.register_contextvar(contextvar, module, qualname,
validate=...)`: derive the module name and default qualname, validate if
requested (resolve the module, look the qualname up — `AttributeError` if
absent — and raise `ValueError` unless the resolved object is the very same
`contextvar`), store the portable reference in the registry, and on the first
successful registration of an `auto_register` reducer install the reducer
with `copyreg` and, when stackless is importable, enable its context-pickling
flags.  Returns the raised exception or `()`, next to the updated reducer and
global state. -/
def register_contextvar (env : Env) (contextvar : ContextVar) (module : ModArg)
    (qualname? : Option String) (validate : Bool)
    (red : ContextReducer) (g : GlobalState) :
    Except PyError Unit × ContextReducer × GlobalState :=
  let modulename : String :=
    match module with
    | .byName s => s
    | .byModule m => m.name
  let qualname := qualname?.getD contextvar.name
  let check : Except PyError Unit :=
    if validate then validate_registration env contextvar module qualname
    else .ok ()
  match check with
  | .error e => (.error e, red, g)
  | .ok _ =>
    let red' : ContextReducer :=
      { red with picklable_contextvars :=
          dictInsert contextvar (modulename, qualname) red.picklable_contextvars }
    if red'.auto_register then
      let red'' : ContextReducer := { red' with auto_register := false }
      let g' : GlobalState :=
        { g with copyregInstalls := g.copyregInstalls + 1,
                 installedReducer := some red'' }
      let g'' : GlobalState :=
        if env.stacklessAvailable then
          { g' with pickleFlagsCurrent := true, pickleFlagsDefault := true }
        else
          g'
      (.ok (), red'', g'')
    else
      (.ok (), red', g)

/-- `ContextReducer.unregister_contextvar(contextvar)`:
`del self.picklable_contextvars[contextvar]` — remove the entry, raising
`KeyError` if absent. -/
def unregister_contextvar (red : ContextReducer) (contextvar : ContextVar) :
    Except PyError Unit × ContextReducer :=
  match dictGet contextvar red.picklable_contextvars with
  | none => (.error .keyError, red)
  | some _ =>
    (.ok (),
     { red with picklable_contextvars :=
         dictRemove contextvar red.picklable_contextvars })

/-- The module-level `default_context_reducer`, as constructed at import
time: `ContextReducer(auto_register=True, factory_is_copy_context=True)`. -/
def default_context_reducer : ContextReducer :=
  { picklable_contextvars := [], auto_register := true,
    factory_is_copy_context := true }

/-- Pickling followed by unpickling a context: reduce it, then invoke the
returned factory (`_context_factory`) on the returned argument tuple in a
world with ambient context `w`. -/
def roundTrip {V : Type} (env : Env) (red : ContextReducer) (context : Context V)
    (w : World V) : Except PyError (Context V) × World V :=
  let out := reduceContext red context
  context_factory env out.1 out.2 w

/-- One recorded invocation of `register_contextvar`. -/
structure RegCall where
  contextvar : ContextVar
  module : ModArg
  qualname? : Option String
  validate : Bool
deriving DecidableEq, Repr

/-- Perform one registration call on a reducer/global-state pair, keeping the
state whether the call succeeds or raises. -/
def registerStep (env : Env) (s : ContextReducer × GlobalState) (c : RegCall) :
    ContextReducer × GlobalState :=
  let out := register_contextvar env c.contextvar c.module c.qualname? c.validate s.1 s.2
  (out.2.1, out.2.2)

/-- Perform a sequence of registration calls in order. -/
def registerSteps (env : Env) (calls : List RegCall)
    (s : ContextReducer × GlobalState) : ContextReducer × GlobalState :=
  calls.foldl (registerStep env) s

/-! ## Dictionary lemmas -/

theorem dictGet_insert_self {K A : Type} [DecidableEq K] (k : K) (v : A)
    (d : List (K × A)) : dictGet k (dictInsert k v d) = some v := by
  induction d with
  | nil => simp [dictGet, dictInsert]
  | cons p rest ih =>
    obtain ⟨a, b⟩ := p
    by_cases h : a = k
    · simp [dictGet, dictInsert, h]
    · simp [dictGet, dictInsert, h, ih]

theorem dictGet_insert_ne {K A : Type} [DecidableEq K] {k k' : K} (v : A)
    (d : List (K × A)) (h : k' ≠ k) :
    dictGet k' (dictInsert k v d) = dictGet k' d := by
  induction d with
  | nil => simp [dictGet, dictInsert, h.symm]
  | cons p rest ih =>
    obtain ⟨a, b⟩ := p
    by_cases hp : a = k
    · subst hp
      simp [dictGet, dictInsert, h.symm]
    · by_cases hp' : a = k'
      · simp [dictGet, dictInsert, hp, hp', h]
      · simp [dictGet, dictInsert, hp, hp', ih]

theorem dictGet_remove_ne {K A : Type} [DecidableEq K] {k k' : K}
    (d : List (K × A)) (h : k' ≠ k) :
    dictGet k' (dictRemove k d) = dictGet k' d := by
  induction d with
  | nil => simp [dictRemove]
  | cons p rest ih =>
    obtain ⟨a, b⟩ := p
    by_cases hp : a = k
    · subst hp
      simp [dictRemove, dictGet, h.symm]
    · by_cases hp' : a = k'
      · simp [dictRemove, dictGet, hp, hp', h]
      · simp [dictRemove, dictGet, hp, hp', ih]

theorem dictGet_eq_none_of_not_mem_keys {K A : Type} [DecidableEq K] {k : K}
    {d : List (K × A)} (h : k ∉ d.map Prod.fst) : dictGet k d = none := by
  induction d with
  | nil => simp [dictGet]
  | cons p rest ih =>
    obtain ⟨a, b⟩ := p
    simp only [List.map_cons, List.mem_cons] at h
    push_neg at h
    simp [dictGet, Ne.symm h.1, ih h.2]

theorem dictGet_remove_self {K A : Type} [DecidableEq K] {k : K}
    {d : List (K × A)} (hnodup : (d.map Prod.fst).Nodup) :
    dictGet k (dictRemove k d) = none := by
  induction d with
  | nil => simp [dictRemove, dictGet]
  | cons p rest ih =>
    obtain ⟨a, b⟩ := p
    simp only [List.map_cons, List.nodup_cons] at hnodup
    by_cases hp : a = k
    · subst hp
      simp only [dictRemove, if_pos rfl]
      exact dictGet_eq_none_of_not_mem_keys hnodup.1
    · simp [dictRemove, dictGet, hp, ih hnodup.2]

theorem mem_of_dictGet_eq_some {K A : Type} [DecidableEq K] {k : K} {v : A}
    {d : List (K × A)} (h : dictGet k d = some v) : (k, v) ∈ d := by
  induction d with
  | nil => simp [dictGet] at h
  | cons p rest ih =>
    obtain ⟨a, b⟩ := p
    by_cases hp : a = k
    · subst hp
      have hb : b = v := by simpa [dictGet] using h
      subst hb
      exact List.mem_cons_self _ _
    · simp only [dictGet, if_neg hp] at h
      exact List.mem_cons_of_mem _ (ih h)

theorem mem_keys_dictInsert_iff {K A : Type} [DecidableEq K] {k k' : K} (v : A)
    (d : List (K × A)) :
    k' ∈ (dictInsert k v d).map Prod.fst ↔ k' = k ∨ k' ∈ d.map Prod.fst := by
  induction d with
  | nil => simp [dictInsert]
  | cons p rest ih =>
    obtain ⟨a, b⟩ := p
    by_cases hp : a = k
    · subst hp
      simp only [dictInsert, List.map_cons, List.mem_cons]
      simp only [if_true, eq_self_iff_true, List.map_cons, List.mem_cons]
      tauto
    · simp only [dictInsert, if_neg hp, List.map_cons, List.mem_cons, ih]
      tauto

theorem keys_dictInsert_nodup {K A : Type} [DecidableEq K] (k : K) (v : A)
    {d : List (K × A)} (hnodup : (d.map Prod.fst).Nodup) :
    ((dictInsert k v d).map Prod.fst).Nodup := by
  induction d with
  | nil => simp [dictInsert]
  | cons p rest ih =>
    obtain ⟨a, b⟩ := p
    simp only [List.map_cons, List.nodup_cons] at hnodup
    by_cases hp : a = k
    · subst hp
      simpa [dictInsert] using hnodup
    · simp only [dictInsert, if_neg hp, List.map_cons, List.nodup_cons]
      refine ⟨?_, ih hnodup.2⟩
      intro hmem
      rcases (mem_keys_dictInsert_iff v rest).mp hmem with h1 | h1
      · exact hp h1
      · exact hnodup.1 h1

theorem mem_dictInsert {K A : Type} [DecidableEq K] {p : K × A} (k : K) (v : A)
    (d : List (K × A)) (h : p ∈ dictInsert k v d) : p = (k, v) ∨ p ∈ d := by
  induction d with
  | nil => simpa [dictInsert] using h
  | cons q rest ih =>
    obtain ⟨a, b⟩ := q
    by_cases hq : a = k
    · subst hq
      simp [dictInsert] at h
      rcases h with h | h
      · left
        simp [h]
      · right
        exact List.mem_cons_of_mem _ h
    · simp only [dictInsert, if_neg hq, List.mem_cons] at h
      rcases h with h | h
      · right
        exact h ▸ List.mem_cons_self _ _
      · rcases ih h with h1 | h1
        · left
          exact h1
        · right
          exact List.mem_cons_of_mem _ h1

/-! ## Facts about the reduction loop `reduceCvars` -/

theorem reduceCvars_keys_nodup {V : Type} (reg : List (ContextVar × ModRef))
    (items : List (ContextVar × V)) (acc : List (ModRef × V))
    (hacc : (acc.map Prod.fst).Nodup) :
    ((reduceCvars reg items acc).map Prod.fst).Nodup := by
  induction items generalizing acc with
  | nil => simpa [reduceCvars] using hacc
  | cons q rest ih =>
    obtain ⟨cv, v⟩ := q
    cases hr : dictGet cv reg with
    | none => simpa [reduceCvars, hr] using ih acc hacc
    | some r =>
      simpa [reduceCvars, hr] using
        ih (dictInsert r v acc) (keys_dictInsert_nodup r v hacc)

theorem reduceCvars_get_of_no_hit {V : Type} (reg : List (ContextVar × ModRef))
    (items : List (ContextVar × V)) (acc : List (ModRef × V)) (r : ModRef)
    (hno : ∀ p ∈ items, dictGet p.1 reg ≠ some r) :
    dictGet r (reduceCvars reg items acc) = dictGet r acc := by
  induction items generalizing acc with
  | nil => simp [reduceCvars]
  | cons q rest ih =>
    obtain ⟨cv, v⟩ := q
    cases hr : dictGet cv reg with
    | none =>
      simp only [reduceCvars, hr]
      exact ih acc fun p hp => hno p (List.mem_cons_of_mem _ hp)
    | some r0 =>
      have hr0 : r0 ≠ r := by
        intro hcontra
        exact hno (cv, v) (List.mem_cons_self _ _) (hcontra ▸ hr)
      simp only [reduceCvars, hr]
      rw [ih (dictInsert r0 v acc) fun p hp => hno p (List.mem_cons_of_mem _ hp)]
      exact dictGet_insert_ne v acc (Ne.symm hr0)

theorem reduceCvars_get_hit {V : Type} (reg : List (ContextVar × ModRef))
    (items : List (ContextVar × V)) (acc : List (ModRef × V))
    (cv : ContextVar) (r : ModRef) (v : V)
    (hmem : (cv, v) ∈ items) (hreg : dictGet cv reg = some r)
    (hnodup : (items.map Prod.fst).Nodup)
    (honly : ∀ cv', cv' ∈ items.map Prod.fst → cv' ≠ cv →
       dictGet cv' reg ≠ some r) :
    dictGet r (reduceCvars reg items acc) = some v := by
  induction items generalizing acc with
  | nil => simp at hmem
  | cons q rest ih =>
    obtain ⟨cv0, v0⟩ := q
    simp only [List.map_cons, List.nodup_cons] at hnodup
    rcases List.mem_cons.mp hmem with h1 | h1
    · obtain ⟨hcv, hv⟩ := Prod.mk.injEq .. ▸ h1
      subst hcv
      subst hv
      simp only [reduceCvars, hreg]
      rw [reduceCvars_get_of_no_hit reg rest (dictInsert r v acc) r ?_]
      · exact dictGet_insert_self r v acc
      · intro p hp
        refine honly p.1 (List.mem_map.mpr ⟨p, List.mem_cons_of_mem _ hp, rfl⟩) ?_
        intro hcontra
        exact hnodup.1 (hcontra ▸ List.mem_map.mpr ⟨p, hp, rfl⟩)
    · have htail : ∀ cv', cv' ∈ rest.map Prod.fst → cv' ≠ cv →
          dictGet cv' reg ≠ some r := by
        intro cv' hcv' hne
        refine honly cv' ?_ hne
        simp only [List.map_cons, List.mem_cons]
        exact Or.inr hcv'
      cases hr0 : dictGet cv0 reg with
      | none =>
        simp only [reduceCvars, hr0]
        exact ih acc h1 hnodup.2 htail
      | some r0 =>
        simp only [reduceCvars, hr0]
        exact ih (dictInsert r0 v0 acc) h1 hnodup.2 htail

theorem reduceCvars_mem_origin {V : Type} (reg : List (ContextVar × ModRef))
    (items : List (ContextVar × V)) (acc : List (ModRef × V))
    (r : ModRef) (v : V) (h : (r, v) ∈ reduceCvars reg items acc) :
    (r, v) ∈ acc ∨ ∃ cv, (cv, v) ∈ items ∧ dictGet cv reg = some r := by
  induction items generalizing acc with
  | nil =>
    left
    simpa [reduceCvars] using h
  | cons q rest ih =>
    obtain ⟨cv0, v0⟩ := q
    cases hr0 : dictGet cv0 reg with
    | none =>
      simp only [reduceCvars, hr0] at h
      rcases ih acc h with h1 | ⟨cv, hcv, hget⟩
      · exact Or.inl h1
      · exact Or.inr ⟨cv, List.mem_cons_of_mem _ hcv, hget⟩
    | some r0 =>
      simp only [reduceCvars, hr0] at h
      rcases ih (dictInsert r0 v0 acc) h with h1 | ⟨cv, hcv, hget⟩
      · rcases mem_dictInsert r0 v0 acc h1 with h2 | h2
        · obtain ⟨hr, hv⟩ := Prod.mk.injEq .. ▸ h2
          subst hr
          subst hv
          exact Or.inr ⟨cv0, List.mem_cons_self _ _, hr0⟩
        · exact Or.inl h2
      · exact Or.inr ⟨cv, List.mem_cons_of_mem _ hcv, hget⟩

/-! ## Facts about the population loop `set_vars` -/

theorem set_vars_ok {V : Type} (env : Env) (mapping : List (ModRef × V))
    (context : Context V)
    (hall : ∀ p ∈ mapping, ∃ cv, resolveModRef env p.1 = Except.ok cv) :
    ∃ ctx', set_vars env mapping context = Except.ok ctx' := by
  induction mapping generalizing context with
  | nil => exact ⟨context, rfl⟩
  | cons q rest ih =>
    obtain ⟨r0, v0⟩ := q
    obtain ⟨cv0, hres0⟩ := hall (r0, v0) (List.mem_cons_self _ _)
    obtain ⟨ctx', hctx'⟩ := ih (ctxSet cv0 v0 context)
      fun p hp => hall p (List.mem_cons_of_mem _ hp)
    exact ⟨ctx', by simpa [set_vars, hres0] using hctx'⟩

theorem set_vars_preserves {V : Type} (env : Env) (mapping : List (ModRef × V))
    (context : Context V) (cv : ContextVar)
    (hall : ∀ p ∈ mapping, ∃ cv', resolveModRef env p.1 = Except.ok cv')
    (hnot : ∀ p ∈ mapping, ∀ cv', resolveModRef env p.1 = Except.ok cv' →
       cv' ≠ cv) :
    ∃ ctx', set_vars env mapping context = Except.ok ctx' ∧
      ctxGet cv ctx' = ctxGet cv context := by
  induction mapping generalizing context with
  | nil => exact ⟨context, rfl, rfl⟩
  | cons q rest ih =>
    obtain ⟨r0, v0⟩ := q
    obtain ⟨cv0, hres0⟩ := hall (r0, v0) (List.mem_cons_self _ _)
    obtain ⟨ctx', hctx', hget⟩ := ih (ctxSet cv0 v0 context)
      (fun p hp => hall p (List.mem_cons_of_mem _ hp))
      (fun p hp => hnot p (List.mem_cons_of_mem _ hp))
    refine ⟨ctx', by simpa [set_vars, hres0] using hctx', ?_⟩
    rw [hget]
    have hne : cv ≠ cv0 :=
      Ne.symm (hnot (r0, v0) (List.mem_cons_self _ _) cv0 hres0)
    exact dictGet_insert_ne v0 context.vars hne

theorem set_vars_get {V : Type} (env : Env) (mapping : List (ModRef × V))
    (context : Context V) (r : ModRef) (v : V) (cv : ContextVar)
    (hall : ∀ p ∈ mapping, ∃ cv', resolveModRef env p.1 = Except.ok cv')
    (hmem : (r, v) ∈ mapping) (hres : resolveModRef env r = Except.ok cv)
    (hnodup : (mapping.map Prod.fst).Nodup)
    (hinj : ∀ p ∈ mapping, p.1 ≠ r → ∀ cv',
       resolveModRef env p.1 = Except.ok cv' → cv' ≠ cv) :
    ∃ ctx', set_vars env mapping context = Except.ok ctx' ∧
      ctxGet cv ctx' = some v := by
  induction mapping generalizing context with
  | nil => simp at hmem
  | cons q rest ih =>
    obtain ⟨r0, v0⟩ := q
    simp only [List.map_cons, List.nodup_cons] at hnodup
    rcases List.mem_cons.mp hmem with h1 | h1
    · obtain ⟨hr, hv⟩ := Prod.mk.injEq .. ▸ h1
      subst hr
      subst hv
      have hnot : ∀ p ∈ rest, ∀ cv',
          resolveModRef env p.1 = Except.ok cv' → cv' ≠ cv := by
        intro p hp cv' hres' hcontra
        subst hcontra
        have hp1 : p.1 ≠ r := by
          intro hc
          exact hnodup.1 (hc ▸ List.mem_map.mpr ⟨p, hp, rfl⟩)
        exact hinj p (List.mem_cons_of_mem _ hp) hp1 cv' hres' rfl
      obtain ⟨ctx', hctx', hget⟩ := set_vars_preserves env rest
        (ctxSet cv v context) cv
        (fun p hp => hall p (List.mem_cons_of_mem _ hp)) hnot
      refine ⟨ctx', by simpa [set_vars, hres] using hctx', ?_⟩
      rw [hget]
      exact dictGet_insert_self cv v context.vars
    · obtain ⟨cv0, hres0⟩ := hall (r0, v0) (List.mem_cons_self _ _)
      obtain ⟨ctx', hctx', hget⟩ := ih (ctxSet cv0 v0 context)
        (fun p hp => hall p (List.mem_cons_of_mem _ hp)) h1 hnodup.2
        (fun p hp => hinj p (List.mem_cons_of_mem _ hp))
      exact ⟨ctx', by simpa [set_vars, hres0] using hctx', hget⟩

/-! ## Generic facts about `ctxRun` -/

theorem ctxRun_world {V : Type} (w : World V) (context : Context V)
    (body : Context V → Except PyError (Context V)) :
    (ctxRun w context body).2 = w := by
  unfold ctxRun
  cases body context <;> rfl

/-! ## Claim theorems -/

/-- C3.  Strategy selection: a reducer constructed with
`factory_is_copy_context = true` selects `contextvars.copy_context` for every
context instance, regardless of its concrete class; one constructed with
`factory_is_copy_context = false` selects `None` when the instance's class is
exactly the base `contextvars.Context`, and the concrete class itself
otherwise. -/
theorem strategy_selection {V : Type} (red : ContextReducer) (context : Context V) :
    (red.factory_is_copy_context = true →
       (reduceContext red context).1 = Strategy.copyContext) ∧
    (red.factory_is_copy_context = false →
       ((context.cls = CtxClass.base →
           (reduceContext red context).1 = Strategy.baseNone) ∧
        (∀ n, context.cls = CtxClass.sub n →
           (reduceContext red context).1 = Strategy.ofClass (CtxClass.sub n)))) := by
  refine ⟨fun hf => ?_, fun hf => ⟨fun hb => ?_, fun n hn => ?_⟩⟩
  · simp [reduceContext, hf]
  · simp [reduceContext, hf, hb]
  · simp [reduceContext, hf, hn]

theorem strategy_selection_witness :
    (reduceContext ⟨[], false, true⟩
       (⟨CtxClass.sub "MyCtx", []⟩ : Context Nat)).1 = Strategy.copyContext ∧
    (reduceContext ⟨[], false, false⟩
       (⟨CtxClass.base, []⟩ : Context Nat)).1 = Strategy.baseNone ∧
    (reduceContext ⟨[], false, false⟩
       (⟨CtxClass.sub "MyCtx", []⟩ : Context Nat)).1 =
         Strategy.ofClass (CtxClass.sub "MyCtx") :=
  ⟨(strategy_selection ⟨[], false, true⟩ ⟨CtxClass.sub "MyCtx", []⟩).1 rfl,
   ((strategy_selection ⟨[], false, false⟩ ⟨CtxClass.base, []⟩).2 rfl).1 rfl,
   ((strategy_selection ⟨[], false, false⟩ ⟨CtxClass.sub "MyCtx", []⟩).2 rfl).2
     "MyCtx" rfl⟩

/-- C6.  Reconstruction isolation: `_context_factory` performs all variable
assignments inside `context.run`, so the caller's ambient current context —
the world state — is exactly what it was before the call, whether the factory
succeeds or raises. -/
theorem factory_preserves_ambient {V : Type} (env : Env) (cls : Strategy)
    (mapping : List (ModRef × V)) (w : World V) :
    (context_factory env cls mapping w).2 = w := by
  unfold context_factory
  exact ctxRun_world w _ _

/-- C8.  Reduce input validation: calling the reducer on an object that is not
a `contextvars.Context` instance raises `TypeError`; calling it on any
context instance (base class or subclass) returns the reduction normally,
with no error. -/
theorem reduce_input_validation {V : Type} :
    (∀ (red : ContextReducer) (tyName : String),
       reducerCall red (PyVal.nonContext tyName : PyVal V) =
         Except.error PyError.typeError) ∧
    (∀ (red : ContextReducer) (c : Context V),
       reducerCall red (PyVal.ctxVal c) = Except.ok (reduceContext red c)) :=
  ⟨fun _ _ => rfl, fun _ _ => rfl⟩

/-- C9.  Unregister semantics: on a registry (whose keys, as a Python dict's,
are distinct), unregistering a registered variable succeeds, removes exactly
that entry — the variable is gone, every other variable's entry and the other
reducer fields are unchanged — while unregistering an absent variable raises
`KeyError` and leaves the reducer untouched. -/
theorem unregister_spec (red : ContextReducer) (cv : ContextVar)
    (hnodup : (red.picklable_contextvars.map Prod.fst).Nodup) :
    (∀ r, dictGet cv red.picklable_contextvars = some r →
       (unregister_contextvar red cv).1 = Except.ok () ∧
       dictGet cv (unregister_contextvar red cv).2.picklable_contextvars = none ∧
       (∀ cv', cv' ≠ cv →
          dictGet cv' (unregister_contextvar red cv).2.picklable_contextvars =
            dictGet cv' red.picklable_contextvars) ∧
       (unregister_contextvar red cv).2.auto_register = red.auto_register ∧
       (unregister_contextvar red cv).2.factory_is_copy_context =
         red.factory_is_copy_context) ∧
    (dictGet cv red.picklable_contextvars = none →
       unregister_contextvar red cv = (Except.error PyError.keyError, red)) := by
  constructor
  · intro r hr
    have hu : unregister_contextvar red cv =
        (Except.ok (),
         { red with picklable_contextvars :=
             dictRemove cv red.picklable_contextvars }) := by
      simp [unregister_contextvar, hr]
    rw [hu]
    exact ⟨rfl, dictGet_remove_self hnodup,
      fun cv' h => dictGet_remove_ne _ h, rfl, rfl⟩
  · intro hr
    simp [unregister_contextvar, hr]

theorem unregister_spec_witness :
    (unregister_contextvar
        ⟨[(⟨0, "a"⟩, ("m", "x")), (⟨1, "b"⟩, ("m", "y"))], false, false⟩
        ⟨0, "a"⟩).1 = Except.ok () ∧
    dictGet ⟨0, "a"⟩
      (unregister_contextvar
        ⟨[(⟨0, "a"⟩, ("m", "x")), (⟨1, "b"⟩, ("m", "y"))], false, false⟩
        ⟨0, "a"⟩).2.picklable_contextvars = none ∧
    dictGet ⟨1, "b"⟩
      (unregister_contextvar
        ⟨[(⟨0, "a"⟩, ("m", "x")), (⟨1, "b"⟩, ("m", "y"))], false, false⟩
        ⟨0, "a"⟩).2.picklable_contextvars = some ("m", "y") ∧
    unregister_contextvar ⟨[(⟨1, "b"⟩, ("m", "y"))], false, false⟩ ⟨0, "a"⟩ =
      (Except.error PyError.keyError, ⟨[(⟨1, "b"⟩, ("m", "y"))], false, false⟩) := by
  have h1 := unregister_spec
    (⟨[(⟨0, "a"⟩, ("m", "x")), (⟨1, "b"⟩, ("m", "y"))], false, false⟩ : ContextReducer)
    ⟨0, "a"⟩ (by decide)
  have h2 := unregister_spec
    (⟨[(⟨1, "b"⟩, ("m", "y"))], false, false⟩ : ContextReducer)
    ⟨0, "a"⟩ (by decide)
  refine ⟨(h1.1 ("m", "x") (by decide)).1, (h1.1 ("m", "x") (by decide)).2.1, ?_,
    h2.2 (by decide)⟩
  have h3 := (h1.1 ("m", "x") (by decide)).2.2.1 ⟨1, "b"⟩ (by decide)
  rw [h3]
  decide

/-- C10.  Portable-reference collision: when two distinct variables are
registered under the same portable reference and a context holds both, the
reduced mapping has a single entry for that reference, carrying the value of
the later-iterated variable only, so it has strictly fewer entries than the
context has registered keys. -/
theorem collision_loses_entries {V : Type} (cv1 cv2 : ContextVar) (r : ModRef)
    (v1 v2 : V) (hne : cv1 ≠ cv2) :
    dictGet cv1 (dictInsert cv2 r (dictInsert cv1 r [])) = some r ∧
    dictGet cv2 (dictInsert cv2 r (dictInsert cv1 r [])) = some r ∧
    (reduceContext ⟨dictInsert cv2 r (dictInsert cv1 r []), false, false⟩
        (⟨CtxClass.base, [(cv1, v1), (cv2, v2)]⟩ : Context V)).2 = [(r, v2)] ∧
    (reduceContext ⟨dictInsert cv2 r (dictInsert cv1 r []), false, false⟩
        (⟨CtxClass.base, [(cv1, v1), (cv2, v2)]⟩ : Context V)).2.length <
      (⟨CtxClass.base, [(cv1, v1), (cv2, v2)]⟩ : Context V).vars.length := by
  have hreg : dictInsert cv2 r (dictInsert cv1 r []) = [(cv1, r), (cv2, r)] := by
    simp [dictInsert, hne]
  refine ⟨?_, ?_, ?_, ?_⟩
  · rw [hreg]; simp [dictGet]
  · rw [hreg]; simp [dictGet, Ne.symm hne]
  · rw [hreg]
    simp [reduceContext, reduceCvars, dictGet, dictInsert, hne, Ne.symm hne]
  · rw [hreg]
    simp [reduceContext, reduceCvars, dictGet, dictInsert, hne, Ne.symm hne]

theorem collision_loses_entries_witness :
    dictGet (⟨0, "a"⟩ : ContextVar) (dictInsert (⟨1, "b"⟩ : ContextVar) ("m", "x")
      (dictInsert (⟨0, "a"⟩ : ContextVar) ("m", "x") [])) = some ("m", "x") ∧
    dictGet (⟨1, "b"⟩ : ContextVar) (dictInsert (⟨1, "b"⟩ : ContextVar) ("m", "x")
      (dictInsert (⟨0, "a"⟩ : ContextVar) ("m", "x") [])) = some ("m", "x") ∧
    (reduceContext
        (⟨dictInsert (⟨1, "b"⟩ : ContextVar) ("m", "x")
            (dictInsert (⟨0, "a"⟩ : ContextVar) ("m", "x") []),
          false, false⟩ : ContextReducer)
        (⟨CtxClass.base, [(⟨0, "a"⟩, 10), (⟨1, "b"⟩, 20)]⟩ : Context Nat)).2 =
      [(("m", "x"), 20)] ∧
    (reduceContext
        (⟨dictInsert (⟨1, "b"⟩ : ContextVar) ("m", "x")
            (dictInsert (⟨0, "a"⟩ : ContextVar) ("m", "x") []),
          false, false⟩ : ContextReducer)
        (⟨CtxClass.base, [(⟨0, "a"⟩, 10), (⟨1, "b"⟩, 20)]⟩ : Context Nat)).2.length <
      (⟨CtxClass.base, [(⟨0, "a"⟩, 10), (⟨1, "b"⟩, 20)]⟩ : Context Nat).vars.length :=
  collision_loses_entries ⟨0, "a"⟩ ⟨1, "b"⟩ ("m", "x") 10 20 (by decide)

/-- C4.  Registration validation and atomicity: a `register_contextvar` call
with `validate = true` whose module/qualname resolution yields a live object
that is not the very variable being registered raises `ValueError`, and
returns the reducer (registry included) and the global state exactly as they
were. -/
theorem register_identity_mismatch_atomic (env : Env) (red : ContextReducer)
    (g : GlobalState) (contextvar v : ContextVar) (module : ModArg)
    (qualname? : Option String) (m : Module)
    (hm : resolveModArg env module = Except.ok m)
    (hv : dictGet (qualname?.getD contextvar.name) m.attrs = some v)
    (hne : v ≠ contextvar) :
    register_contextvar env contextvar module qualname? true red g =
      (Except.error PyError.valueError, red, g) := by
  simp [register_contextvar, validate_registration, hm, hv, hne]

theorem register_identity_mismatch_atomic_witness :
    register_contextvar
      ⟨[("m", ⟨"m", [("x", ⟨1, "b"⟩)]⟩)], false⟩ ⟨0, "a"⟩ (ModArg.byName "m")
      (some "x") true ⟨[], true, true⟩ ⟨0, none, false, false⟩ =
    (Except.error PyError.valueError, ⟨[], true, true⟩, ⟨0, none, false, false⟩) :=
  register_identity_mismatch_atomic
    ⟨[("m", ⟨"m", [("x", ⟨1, "b"⟩)]⟩)], false⟩ ⟨[], true, true⟩
    ⟨0, none, false, false⟩
    ⟨0, "a"⟩ ⟨1, "b"⟩ (ModArg.byName "m") (some "x") ⟨"m", [("x", ⟨1, "b"⟩)]⟩
    rfl rfl (by decide)

/-! ## Resolution failure during reconstruction (C5) -/

theorem resolveModRef_error_isResolution (env : Env) (r : ModRef) (e : PyError)
    (h : resolveModRef env r = Except.error e) : e.isResolution := by
  cases him : importModule env r.1 with
  | none =>
    simp [resolveModRef, him] at h
    subst h
    trivial
  | some m =>
    cases hat : dictGet r.2 m.attrs with
    | none =>
      simp [resolveModRef, him, hat] at h
      subst h
      trivial
    | some cv =>
      simp [resolveModRef, him, hat] at h

theorem set_vars_error_of_bad_ref {V : Type} (env : Env)
    (mapping : List (ModRef × V)) (context : Context V)
    (h : ∃ p ∈ mapping, ∃ e, resolveModRef env p.1 = Except.error e) :
    ∃ e, set_vars env mapping context = Except.error e ∧ e.isResolution := by
  induction mapping generalizing context with
  | nil =>
    obtain ⟨p, hp, _⟩ := h
    simp at hp
  | cons q rest ih =>
    obtain ⟨a, b⟩ := q
    cases hres : resolveModRef env a with
    | error e =>
      refine ⟨e, ?_, resolveModRef_error_isResolution env a e hres⟩
      simp [set_vars, hres]
    | ok cv =>
      obtain ⟨p, hp, e, he⟩ := h
      rcases List.mem_cons.mp hp with h1 | h1
      · subst h1
        rw [hres] at he
        cases he
      · obtain ⟨e', he', hres'⟩ := ih (ctxSet cv b context) ⟨p, h1, e, he⟩
        refine ⟨e', ?_, hres'⟩
        simpa [set_vars, hres] using he'

/-- C5.  Failure atomicity of reconstruction: whenever any portable reference
of the mapping fails to re-resolve (its module or its attribute is missing),
`_context_factory` raises that resolution error to the caller and returns no
context at all — the caller never sees a partially populated context. -/
theorem factory_resolution_failure_atomic {V : Type} (env : Env)
    (cls : Strategy) (mapping : List (ModRef × V)) (w : World V)
    (h : ∃ p ∈ mapping, ∃ e, resolveModRef env p.1 = Except.error e) :
    ∃ e, (context_factory env cls mapping w).1 = Except.error e ∧
      e.isResolution := by
  obtain ⟨e, hsv, hres⟩ :=
    set_vars_error_of_bad_ref env mapping (initialContext cls w) h
  refine ⟨e, ?_, hres⟩
  unfold context_factory ctxRun
  rw [hsv]

theorem factory_resolution_failure_atomic_witness :
    ∃ e, (context_factory (⟨[], false⟩ : Env) Strategy.baseNone
        [(("m", "x"), (5 : Nat))] ⟨⟨CtxClass.base, []⟩⟩).1 = Except.error e ∧
      e.isResolution :=
  factory_resolution_failure_atomic ⟨[], false⟩ Strategy.baseNone
    [(("m", "x"), 5)] ⟨⟨CtxClass.base, []⟩⟩
    ⟨(("m", "x"), 5), by simp, PyError.importError, rfl⟩

/-! ## One-time auto-activation (C7) -/

theorem registerStep_install_inv (env : Env) (c : RegCall)
    (s : ContextReducer × GlobalState)
    (h : s.2.copyregInstalls ≤ if s.1.auto_register then 0 else 1) :
    (registerStep env s c).2.copyregInstalls ≤
      if (registerStep env s c).1.auto_register then 0 else 1 := by
  obtain ⟨red, g⟩ := s
  obtain ⟨cv, marg, qn, val⟩ := c
  cases val with
  | false =>
    cases har : red.auto_register with
    | false => simpa [registerStep, register_contextvar, har] using h
    | true =>
      have h0 : g.copyregInstalls = 0 := by simpa [har] using h
      cases hsl : env.stacklessAvailable with
      | false => simp [registerStep, register_contextvar, har, hsl, h0]
      | true => simp [registerStep, register_contextvar, har, hsl, h0]
  | true =>
    cases hchk : validate_registration env cv marg (qn.getD cv.name) with
    | error e => simpa [registerStep, register_contextvar, hchk] using h
    | ok u =>
      cases har : red.auto_register with
      | false => simpa [registerStep, register_contextvar, hchk, har] using h
      | true =>
        have h0 : g.copyregInstalls = 0 := by simpa [har] using h
        cases hsl : env.stacklessAvailable with
        | false => simp [registerStep, register_contextvar, hchk, har, hsl, h0]
        | true => simp [registerStep, register_contextvar, hchk, har, hsl, h0]

theorem registerSteps_install_inv (env : Env) (calls : List RegCall)
    (s : ContextReducer × GlobalState)
    (h : s.2.copyregInstalls ≤ if s.1.auto_register then 0 else 1) :
    (registerSteps env calls s).2.copyregInstalls ≤
      if (registerSteps env calls s).1.auto_register then 0 else 1 := by
  induction calls generalizing s with
  | nil => simpa [registerSteps] using h
  | cons c rest ih =>
    simp only [registerSteps, List.foldl_cons]
    exact ih (registerStep env s c) (registerStep_install_inv env c s h)

/-- C7.  One-time auto-activation: the module-level default reducer is
created with `auto_register = true`; the first successful registration on an
`auto_register` reducer performs the `copyreg` installation exactly once,
installing that very reducer, sets both stackless pickle flags when stackless
is importable, and clears `auto_register`; a successful registration on a
reducer whose `auto_register` is already cleared leaves the global state
untouched; a failed registration changes neither the reducer nor the global
state; and any sequence of registrations starting from the default reducer in
a fresh process performs the installation at most once. -/
theorem auto_activation_once (env : Env) :
    default_context_reducer.auto_register = true ∧
    (∀ (red : ContextReducer) (g : GlobalState) (c : RegCall),
       red.auto_register = true →
       (register_contextvar env c.contextvar c.module c.qualname? c.validate
           red g).1 = Except.ok () →
       ((register_contextvar env c.contextvar c.module c.qualname? c.validate
            red g).2.2.copyregInstalls = g.copyregInstalls + 1 ∧
        (register_contextvar env c.contextvar c.module c.qualname? c.validate
            red g).2.2.installedReducer =
          some (register_contextvar env c.contextvar c.module c.qualname?
            c.validate red g).2.1 ∧
        (register_contextvar env c.contextvar c.module c.qualname? c.validate
            red g).2.1.auto_register = false ∧
        (env.stacklessAvailable = true →
          (register_contextvar env c.contextvar c.module c.qualname? c.validate
              red g).2.2.pickleFlagsCurrent = true ∧
          (register_contextvar env c.contextvar c.module c.qualname? c.validate
              red g).2.2.pickleFlagsDefault = true))) ∧
    (∀ (red : ContextReducer) (g : GlobalState) (c : RegCall),
       red.auto_register = false →
       (register_contextvar env c.contextvar c.module c.qualname? c.validate
           red g).2.2 = g) ∧
    (∀ (red : ContextReducer) (g : GlobalState) (c : RegCall) (e : PyError),
       (register_contextvar env c.contextvar c.module c.qualname? c.validate
           red g).1 = Except.error e →
       (register_contextvar env c.contextvar c.module c.qualname? c.validate
           red g).2 = (red, g)) ∧
    (∀ (calls : List RegCall) (g : GlobalState),
       g.copyregInstalls = 0 →
       (registerSteps env calls (default_context_reducer, g)).2.copyregInstalls
         ≤ 1) := by
  refine ⟨rfl, ?_, ?_, ?_, ?_⟩
  · intro red g c har hok
    obtain ⟨cv, marg, qn, val⟩ := c
    cases val with
    | false =>
      cases hsl : env.stacklessAvailable with
      | false => simp [register_contextvar, har, hsl]
      | true => simp [register_contextvar, har, hsl]
    | true =>
      cases hchk : validate_registration env cv marg (qn.getD cv.name) with
      | error e => simp [register_contextvar, hchk] at hok
      | ok u =>
        cases hsl : env.stacklessAvailable with
        | false => simp [register_contextvar, hchk, har, hsl]
        | true => simp [register_contextvar, hchk, har, hsl]
  · intro red g c har
    obtain ⟨cv, marg, qn, val⟩ := c
    cases val with
    | false => simp [register_contextvar, har]
    | true =>
      cases hchk : validate_registration env cv marg (qn.getD cv.name) with
      | error e => simp [register_contextvar, hchk]
      | ok u => simp [register_contextvar, hchk, har]
  · intro red g c e herr
    obtain ⟨cv, marg, qn, val⟩ := c
    cases val with
    | false =>
      cases har : red.auto_register with
      | false => simp [register_contextvar, har] at herr
      | true => simp [register_contextvar, har] at herr
    | true =>
      cases hchk : validate_registration env cv marg (qn.getD cv.name) with
      | error e' => simp [register_contextvar, hchk]
      | ok u =>
        cases har : red.auto_register with
        | false => simp [register_contextvar, hchk, har] at herr
        | true => simp [register_contextvar, hchk, har] at herr
  · intro calls g hg
    have h := registerSteps_install_inv env calls (default_context_reducer, g)
      (by simp [default_context_reducer, hg])
    rcases hfin : (registerSteps env calls
        (default_context_reducer, g)).1.auto_register with _ | _
    · rw [hfin] at h
      simpa using h
    · rw [hfin] at h
      simpa using Nat.le_trans h (by norm_num)

theorem auto_activation_once_witness :
    (register_contextvar (⟨[("m", ⟨"m", [("x", ⟨0, "x"⟩)]⟩)], true⟩ : Env)
        ⟨0, "x"⟩ (ModArg.byName "m") (some "x") true
        default_context_reducer ⟨0, none, false, false⟩).2.2.copyregInstalls
      = 1 ∧
    (register_contextvar (⟨[("m", ⟨"m", [("x", ⟨0, "x"⟩)]⟩)], true⟩ : Env)
        ⟨0, "x"⟩ (ModArg.byName "m") (some "x") true
        default_context_reducer ⟨0, none, false, false⟩).2.2.pickleFlagsCurrent
      = true ∧
    (register_contextvar (⟨[], false⟩ : Env) ⟨0, "x"⟩ (ModArg.byName "m")
        (some "x") true ⟨[], true, true⟩ ⟨0, none, false, false⟩).2 =
      ((⟨[], true, true⟩ : ContextReducer), (⟨0, none, false, false⟩ : GlobalState)) ∧
    (registerSteps (⟨[("m", ⟨"m", [("x", ⟨0, "x"⟩)]⟩)], true⟩ : Env)
        [⟨⟨0, "x"⟩, ModArg.byName "m", some "x", true⟩,
         ⟨⟨0, "x"⟩, ModArg.byName "m", some "x", true⟩]
        (default_context_reducer, ⟨0, none, false, false⟩)).2.copyregInstalls
      ≤ 1 := by
  have h := auto_activation_once (⟨[("m", ⟨"m", [("x", ⟨0, "x"⟩)]⟩)], true⟩ : Env)
  have herr := auto_activation_once (⟨[], false⟩ : Env)
  refine ⟨?_, ?_, ?_, ?_⟩
  · have hb := (h.2.1 default_context_reducer ⟨0, none, false, false⟩
      ⟨⟨0, "x"⟩, ModArg.byName "m", some "x", true⟩ rfl rfl).1
    simpa using hb
  · exact ((h.2.1 default_context_reducer ⟨0, none, false, false⟩
      ⟨⟨0, "x"⟩, ModArg.byName "m", some "x", true⟩ rfl rfl).2.2.2 rfl).1
  · exact herr.2.2.2.1 ⟨[], true, true⟩ ⟨0, none, false, false⟩
      ⟨⟨0, "x"⟩, ModArg.byName "m", some "x", true⟩ PyError.importError rfl
  · exact h.2.2.2.2
      [⟨⟨0, "x"⟩, ModArg.byName "m", some "x", true⟩,
       ⟨⟨0, "x"⟩, ModArg.byName "m", some "x", true⟩]
      ⟨0, none, false, false⟩ rfl

/-! ## Privacy boundary (C2) -/

/-- C2 counterexample: with two distinct variables registered under the same
portable reference and both present in the context, a registered, present
key's `(portable reference, value)` pair is missing from the reduced mapping,
so the mapping does not contain exactly the pairs of the registered keys. -/
theorem reduce_exact_pairs_cex :
    dictGet (⟨0, "a"⟩ : ContextVar)
      [((⟨0, "a"⟩ : ContextVar), (("m", "x") : ModRef)),
       ((⟨1, "b"⟩ : ContextVar), (("m", "x") : ModRef))] = some ("m", "x") ∧
    ((⟨0, "a"⟩ : ContextVar), (10 : Nat)) ∈
      (⟨CtxClass.base, [(⟨0, "a"⟩, 10), (⟨1, "b"⟩, 20)]⟩ : Context Nat).vars ∧
    ((("m", "x") : ModRef), (10 : Nat)) ∉
      (reduceContext
        (⟨[(⟨0, "a"⟩, ("m", "x")), (⟨1, "b"⟩, ("m", "x"))], false, false⟩ :
          ContextReducer)
        (⟨CtxClass.base, [(⟨0, "a"⟩, 10), (⟨1, "b"⟩, 20)]⟩ : Context Nat)).2 := by
  decide

/-- C2 (amended).  Privacy boundary: provided no two distinct registered keys
of the context share a portable reference (which holds in particular whenever
the symmetric resolution contract of registration validation is in force),
the reference-value mapping produced by reduction contains exactly the
`(portable reference, value)` pairs of the context keys registered at
reduction time — unregistered keys are silently excluded, with no error or
warning — and after unregistering a previously registered variable, reducing
a context that holds it excludes its reference from the result. -/
theorem reduce_privacy_boundary {V : Type} (red : ContextReducer)
    (context : Context V)
    (hnodup : (context.vars.map Prod.fst).Nodup)
    (hregNodup : (red.picklable_contextvars.map Prod.fst).Nodup)
    (hinj : ∀ cv cv', cv ∈ context.vars.map Prod.fst →
       cv' ∈ context.vars.map Prod.fst → cv ≠ cv' → ∀ r,
       dictGet cv red.picklable_contextvars = some r →
       dictGet cv' red.picklable_contextvars ≠ some r) :
    (∀ r v, (r, v) ∈ (reduceContext red context).2 ↔
       ∃ cv, (cv, v) ∈ context.vars ∧
         dictGet cv red.picklable_contextvars = some r) ∧
    (∀ cv r, cv ∈ context.vars.map Prod.fst →
       dictGet cv red.picklable_contextvars = some r →
       ∀ v, (r, v) ∉
         (reduceContext (unregister_contextvar red cv).2 context).2) := by
  constructor
  · intro r v
    constructor
    · intro hmem
      rcases reduceCvars_mem_origin red.picklable_contextvars context.vars []
        r v hmem with h0 | ⟨cv, hcv, hget⟩
      · simp at h0
      · exact ⟨cv, hcv, hget⟩
    · rintro ⟨cv, hcv, hget⟩
      have honly : ∀ cv', cv' ∈ context.vars.map Prod.fst → cv' ≠ cv →
          dictGet cv' red.picklable_contextvars ≠ some r := by
        intro cv' hcv' hne
        exact hinj cv cv' (List.mem_map.mpr ⟨(cv, v), hcv, rfl⟩) hcv'
          (Ne.symm hne) r hget
      exact mem_of_dictGet_eq_some
        (reduceCvars_get_hit red.picklable_contextvars context.vars [] cv r v
          hcv hget hnodup honly)
  · intro cv r hcvmem hget v hmem
    have hu : (unregister_contextvar red cv).2 =
        { red with picklable_contextvars :=
            dictRemove cv red.picklable_contextvars } := by
      simp [unregister_contextvar, hget]
    rw [hu] at hmem
    rcases reduceCvars_mem_origin (dictRemove cv red.picklable_contextvars)
      context.vars [] r v hmem with h0 | ⟨cv', hcv', hget'⟩
    · simp at h0
    · by_cases hne : cv' = cv
      · subst hne
        rw [dictGet_remove_self hregNodup] at hget'
        cases hget'
      · rw [dictGet_remove_ne red.picklable_contextvars hne] at hget'
        exact hinj cv cv' hcvmem (List.mem_map.mpr ⟨(cv', v), hcv', rfl⟩)
          (Ne.symm hne) r hget hget'

theorem reduce_privacy_boundary_witness :
    ((("m", "x"), (10 : Nat)) ∈
       (reduceContext
         (⟨[(⟨0, "a"⟩, ("m", "x")), (⟨1, "b"⟩, ("m", "y"))], false, false⟩ :
           ContextReducer)
         (⟨CtxClass.base, [(⟨0, "a"⟩, 10), (⟨1, "b"⟩, 20)]⟩ : Context Nat)).2 ↔
      ∃ cv, (cv, (10 : Nat)) ∈
          (⟨CtxClass.base, [(⟨0, "a"⟩, 10), (⟨1, "b"⟩, 20)]⟩ : Context Nat).vars ∧
        dictGet cv [((⟨0, "a"⟩ : ContextVar), (("m", "x") : ModRef)),
          ((⟨1, "b"⟩ : ContextVar), (("m", "y") : ModRef))] = some ("m", "x")) ∧
    (∀ v : Nat, (("m", "x"), v) ∉
      (reduceContext
        (unregister_contextvar
          (⟨[(⟨0, "a"⟩, ("m", "x")), (⟨1, "b"⟩, ("m", "y"))], false, false⟩ :
            ContextReducer) ⟨0, "a"⟩).2
        (⟨CtxClass.base, [(⟨0, "a"⟩, 10), (⟨1, "b"⟩, 20)]⟩ : Context Nat)).2) := by
  have h := reduce_privacy_boundary
    (⟨[(⟨0, "a"⟩, ("m", "x")), (⟨1, "b"⟩, ("m", "y"))], false, false⟩ :
      ContextReducer)
    (⟨CtxClass.base, [(⟨0, "a"⟩, 10), (⟨1, "b"⟩, 20)]⟩ : Context Nat)
    (by decide) (by decide) ?_
  · exact ⟨h.1 ("m", "x") 10, fun v => h.2 ⟨0, "a"⟩ ("m", "x") (by decide)
      (by decide) v⟩
  · intro cv cv' hcv hcv' hne r hr
    simp only [List.map_cons, List.map_nil, List.mem_cons,
      List.not_mem_nil, or_false] at hcv hcv'
    rcases hcv with h1 | h1 <;> rcases hcv' with h2 | h2
    · exact absurd (h1.trans h2.symm) hne
    · subst h1
      subst h2
      simp [dictGet] at hr
      subst hr
      decide
    · subst h1
      subst h2
      simp [dictGet] at hr
      subst hr
      decide
    · exact absurd (h1.trans h2.symm) hne

/-! ## Round trip (C1) -/

theorem context_factory_fst_ok {V : Type} (env : Env) (cls : Strategy)
    (mapping : List (ModRef × V)) (w : World V) (ctx' : Context V)
    (h : set_vars env mapping (initialContext cls w) = Except.ok ctx') :
    (context_factory env cls mapping w).1 = Except.ok ctx' := by
  unfold context_factory ctxRun
  rw [h]

/-- C1.  Round trip: for a context with (distinct) keys that are all
registered, when every registered portable reference re-resolves to the very
variable it was registered for (the symmetric name-resolution contract),
invoking the factory returned by the reducer on the returned arguments
succeeds and yields a context in which every variable of the original context
has its original value. -/
theorem roundtrip_registered_values {V : Type} (env : Env)
    (red : ContextReducer) (context : Context V) (w : World V)
    (hnodup : (context.vars.map Prod.fst).Nodup)
    (hreg : ∀ p ∈ context.vars, ∃ r,
       dictGet p.1 red.picklable_contextvars = some r)
    (hres : ∀ cv r, dictGet cv red.picklable_contextvars = some r →
       resolveModRef env r = Except.ok cv) :
    ∃ ctx', (roundTrip env red context w).1 = Except.ok ctx' ∧
      ∀ p ∈ context.vars, ctxGet p.1 ctx' = some p.2 := by
  have hall : ∀ q ∈ reduceCvars red.picklable_contextvars context.vars [],
      ∃ cv', resolveModRef env q.1 = Except.ok cv' := by
    intro q hq
    obtain ⟨r', v'⟩ := q
    rcases reduceCvars_mem_origin red.picklable_contextvars context.vars []
      r' v' hq with h0 | ⟨cv, _, hget⟩
    · simp at h0
    · exact ⟨cv, hres cv r' hget⟩
  have hmapnodup :
      ((reduceCvars red.picklable_contextvars context.vars []).map
        Prod.fst).Nodup :=
    reduceCvars_keys_nodup red.picklable_contextvars context.vars [] (by simp)
  obtain ⟨ctx0', hset⟩ := set_vars_ok env
    (reduceCvars red.picklable_contextvars context.vars [])
    (initialContext (reduceContext red context).1 w) hall
  refine ⟨ctx0', ?_, ?_⟩
  · exact context_factory_fst_ok env (reduceContext red context).1
      (reduceContext red context).2 w ctx0' hset
  · intro p hp
    obtain ⟨cv, v⟩ := p
    obtain ⟨r, hget⟩ := hreg (cv, v) hp
    have honly : ∀ cv', cv' ∈ context.vars.map Prod.fst → cv' ≠ cv →
        dictGet cv' red.picklable_contextvars ≠ some r := by
      intro cv' _ hne hget'
      have h1 := hres cv' r hget'
      have h2 := hres cv r hget
      rw [h1] at h2
      injection h2 with h3
      exact hne h3
    have hmem : (r, v) ∈ reduceCvars red.picklable_contextvars
        context.vars [] :=
      mem_of_dictGet_eq_some
        (reduceCvars_get_hit red.picklable_contextvars context.vars [] cv r v
          hp hget hnodup honly)
    have hinj2 : ∀ q ∈ reduceCvars red.picklable_contextvars context.vars [],
        q.1 ≠ r → ∀ cv', resolveModRef env q.1 = Except.ok cv' → cv' ≠ cv := by
      intro q hq hqne cv' hres' hcontra
      subst hcontra
      rcases reduceCvars_mem_origin red.picklable_contextvars context.vars []
        q.1 q.2 (by simpa using hq) with h0 | ⟨cv'', hcv'', hget''⟩
      · simp at h0
      · have h1 := hres cv'' q.1 hget''
        rw [h1] at hres'
        injection hres' with h3
        rw [h3] at hget''
        rw [hget] at hget''
        injection hget'' with h4
        exact hqne h4.symm
    obtain ⟨ctx'', hset'', hget2⟩ := set_vars_get env
      (reduceCvars red.picklable_contextvars context.vars [])
      (initialContext (reduceContext red context).1 w) r v cv hall hmem
      (hres cv r hget) hmapnodup hinj2
    rw [hset] at hset''
    injection hset'' with h5
    rw [h5]
    exact hget2

theorem roundtrip_registered_values_witness :
    ∃ ctx', (roundTrip
        (⟨[("m", ⟨"m", [("x", ⟨0, "x"⟩), ("y", ⟨1, "y"⟩)]⟩)], false⟩ : Env)
        (⟨[(⟨0, "x"⟩, ("m", "x")), (⟨1, "y"⟩, ("m", "y"))], false, true⟩ :
          ContextReducer)
        (⟨CtxClass.base, [(⟨0, "x"⟩, 10), (⟨1, "y"⟩, 20)]⟩ : Context Nat)
        ⟨⟨CtxClass.base, [(⟨0, "x"⟩, 99)]⟩⟩).1 = Except.ok ctx' ∧
      ∀ p ∈ (⟨CtxClass.base, [(⟨0, "x"⟩, 10), (⟨1, "y"⟩, 20)]⟩ :
          Context Nat).vars,
        ctxGet p.1 ctx' = some p.2 := by
  refine roundtrip_registered_values
    (⟨[("m", ⟨"m", [("x", ⟨0, "x"⟩), ("y", ⟨1, "y"⟩)]⟩)], false⟩ : Env)
    (⟨[(⟨0, "x"⟩, ("m", "x")), (⟨1, "y"⟩, ("m", "y"))], false, true⟩ :
      ContextReducer)
    (⟨CtxClass.base, [(⟨0, "x"⟩, 10), (⟨1, "y"⟩, 20)]⟩ : Context Nat)
    ⟨⟨CtxClass.base, [(⟨0, "x"⟩, 99)]⟩⟩ (by decide) ?_ ?_
  · intro p hp
    simp only [List.mem_cons, List.not_mem_nil, or_false] at hp
    rcases hp with h | h
    · subst h
      exact ⟨("m", "x"), rfl⟩
    · subst h
      exact ⟨("m", "y"), rfl⟩
  · intro cv r h
    by_cases h1 : (⟨0, "x"⟩ : ContextVar) = cv
    · subst h1
      simp [dictGet] at h
      subst h
      rfl
    · by_cases h2 : (⟨1, "y"⟩ : ContextVar) = cv
      · subst h2
        simp [dictGet, h1] at h
        subst h
        rfl
      · simp [dictGet, h1, h2] at h

end Cvpickle
